import Mathlib

/-!
# Verification of the Aurora_Inverter alert engine

Shallow embedding of the anomaly-detection and alert-deduplication logic of
`pages/alert.py` (class `SolarMonitoringApp`), together with the near-duplicate
variants in `pages/all_plant.py` and `one_plant.py` where they matter.

Modelling conventions:
* Timestamps are integer epoch seconds (the Python code works with `datetime`
  objects and float epoch timestamps; every claim is at second granularity or
  coarser).
* Power values are rationals (`ℚ`); the vendor reports watts, and the plotting
  pipeline divides by 1000 to kW before the peer comparison, exactly as in the
  source.
* The message-history JSON file is modelled as a function
  `String → Option LedgerEntry`; loading and saving the file are threaded
  explicitly through each function, reproducing the source's
  load/mutate/save sequencing (including the places where a stale in-memory
  copy is saved over a fresher one).
* `strftime('%Y-%m-%d %H:%M')` formatting is modelled by `fmtMinute`, which
  renders the minute number; it is injective on minutes exactly as the real
  format string is, which is all the dedup string comparisons depend on.
* Every call to `send_telegram_alert` is recorded as an `Event.dispatch` with
  its outcome (off-hours gate, dedup suppression, delivered, or HTTP failure);
  `st.warning` calls for deactivated inverters are recorded as
  `Event.deactivated`.
-/

/-- One record of `message_history.json`:
`{'timestamp': float epoch, 'details': str or None, 'message': str}`
(`pages/alert.py` lines 263-274). -/
structure LedgerEntry where
  timestamp : Int
  details : Option String
  message : String
  deriving DecidableEq, Repr

/-- The message-history store, keyed by issue id (a Python dict). -/
def Ledger : Type := String → Option LedgerEntry

/-- The empty message history (fresh `message_history.json`). -/
def emptyLedger : Ledger := fun _ => none

/-- Python dict update `history[key] = entry`. -/
def ledgerInsert (key : String) (e : LedgerEntry) (H : Ledger) : Ledger :=
  fun k => if k = key then some e else H k

/-- Python dict removal `history.pop(key, None)`. -/
def ledgerErase (key : String) (H : Ledger) : Ledger :=
  fun k => if k = key then none else H k

/-- `clean_old_messages` (`pages/alert.py` lines 103-111): keep exactly the
entries whose `timestamp` is strictly greater than `now - 15*60`. -/
def cleanOldMessages (now : Int) (H : Ledger) : Ledger :=
  fun k => (H k).bind fun e => if now - 15 * 60 < e.timestamp then some e else none

/-- Outcome of one `send_telegram_alert` call. -/
inductive Outcome where
  /-- The current hour is outside 8..16: the function returns `False`
  immediately, touching nothing. -/
  | offHours
  /-- An identical issue was sent less than 15 minutes ago: return `False`
  without saving or sending. -/
  | dedupSuppressed
  /-- The history was updated and the HTTP post returned status 200. -/
  | delivered
  /-- The history was updated but the HTTP post failed. -/
  | failed
  deriving DecidableEq, Repr

/-- Observable effects of the dispatcher and of the per-plant processing. -/
inductive Event where
  /-- A call to `send_telegram_alert` with the given issue id and details. -/
  | dispatch (issueId : String) (details : Option String) (outcome : Outcome)
  /-- The `st.warning(f"{plant}, inverter {serial} is deactivated.")` emitted
  for inverters whose series has no non-missing value. -/
  | deactivated (plant : String) (serial : String)
  deriving DecidableEq, Repr

/-- `send_telegram_alert(message, issue_id, issue_details)`
(`pages/alert.py` lines 230-295).

Inside the 08:00-16:00 window it loads the history, cleans entries older than
15 minutes, suppresses when an entry for `issueId` is younger than 15 minutes
and has identical `details`, else upserts the entry, saves, and posts the
message (`sendOk` models the HTTP result).  Outside the window it returns
`False` without loading, updating or saving anything. -/
def sendTelegramAlert (hour : Nat) (now : Int) (sendOk : Bool) (H : Ledger)
    (issueId : String) (details : Option String) (message : String) :
    Ledger × Event :=
  if 8 ≤ hour ∧ hour ≤ 16 then
    let h := cleanOldMessages now H
    match h issueId with
    | some e =>
      if now - e.timestamp < 15 * 60 ∧ e.details = details then
        (H, .dispatch issueId details .dedupSuppressed)
      else
        (ledgerInsert issueId ⟨now, details, message⟩ h,
          .dispatch issueId details (if sendOk then .delivered else .failed))
    | none =>
      (ledgerInsert issueId ⟨now, details, message⟩ h,
        .dispatch issueId details (if sendOk then .delivered else .failed))
  else
    (H, .dispatch issueId details .offHours)

/-- One row of a per-inverter CSV file
(`["epoch_start", "datetime", "serial", "value", "units"]`): the civil
`datetime` is a monotone rendering of the epoch, so one integer time field
suffices; `value` is `none` where the vendor slot is empty or non-numeric. -/
structure Row where
  time : Int
  serial : String
  value : Option ℚ
  deriving DecidableEq, Repr

/-- Models `strftime('%Y-%m-%d %H:%M')`: renders the minute number of an epoch
time.  Like the real format string it is injective on minutes and collapses
seconds. -/
def fmtMinute (t : Int) : String := toString (t / 60)

/-- Rendering of a rational power value inside a details fingerprint. -/
def fmtVal (q : ℚ) : String := toString q.num ++ "/" ++ toString q.den

/-- Python `round(x, 2)`. -/
def roundTo2 (q : ℚ) : ℚ := (round (q * 100) : ℤ) / 100

/-- `data[data['value'].notnull()]['datetime'].iloc[-1]`: the time of the last
row carrying a value, if any. -/
def lastPresentTime (rows : List Row) : Option Int :=
  ((rows.filter fun r => r.value.isSome).getLast?).map (·.time)

/-- `data['serial'].iloc[0]`. -/
def serialOf (rows : List Row) : String :=
  ((rows.head?).map (·.serial)).getD ""

/-- Result of `check_inverter_time`: the saved history, the dispatches made,
and the boolean the function returns (`True` = up to date). -/
structure TimeCheck where
  ledger : Ledger
  events : List Event
  upToDate : Bool

/-- `check_inverter_time(data, plant_name)` (`pages/alert.py` lines 113-149).

If the last non-missing sample is more than 30 minutes old, dispatch the
`outdated` alert and return `False`.  Otherwise, if the history holds an
`outdated` entry for this inverter, dispatch a resolution message, then pop
the entry from the copy of the history that was loaded *before* that dispatch
and save it — so the saved state is the pre-dispatch history minus the entry
(`pages/alert.py` lines 136-147; the record the dispatch itself saved is
overwritten).  The `none` branch of `lastPresentTime` is unreachable: the
caller only invokes this under `df_logger['value'].notnull().any()` (pandas
would raise `IndexError` there). -/
def checkInverterTime (hour : Nat) (now : Int) (sendOk : Bool) (H : Ledger)
    (plant : String) (rows : List Row) : TimeCheck :=
  match lastPresentTime rows with
  | none => ⟨H, [], true⟩
  | some tlast =>
    let serial := serialOf rows
    let issueId := plant ++ "_" ++ serial ++ "_outdated"
    if now - 30 * 60 > tlast then
      let details := "last_update:" ++ fmtMinute tlast
      let msg := plant ++ ", inverter " ++ serial ++ " outdated.\nLast update: "
        ++ fmtMinute tlast
      let sent := sendTelegramAlert hour now sendOk H issueId (some details) msg
      ⟨sent.1, [sent.2], false⟩
    else
      if (H issueId).isSome then
        let rmsg := plant ++ ", inverter " ++ serial ++ " is now up-to-date."
        let ev := (sendTelegramAlert hour now sendOk H (issueId ++ "_resolved")
          none rmsg).2
        ⟨ledgerErase issueId H, [ev], true⟩
      else
        ⟨H, [], true⟩

/-- `data[data['value'].notnull()]`, paired as (time, value): the non-missing
trailing samples the low-power evaluator works on. -/
def presentPairs (rows : List Row) : List (Int × ℚ) :=
  rows.filterMap fun r => r.value.map fun v => (r.time, v)

/-- `check_low_power_period(data, plant_name)` (`pages/alert.py` lines
186-228).

Both the sustained-low-power and the power-drop branches sit under the guard
`value.iloc[-1] < 5000 and value.size > 3`, so both need at least four
non-missing samples.  The `else` branch silently pops any `low_power` /
`power_drop` history entries for this inverter without dispatching anything.
The empty-`present` fallthrough and the short-`rev` match arms are unreachable
under the caller's `notnull().any()` guard and the `size > 3` guard
respectively (pandas would raise on the former). -/
def checkLowPowerPeriod (hour : Nat) (now : Int) (sendOk : Bool) (H : Ledger)
    (plant : String) (rows : List Row) : Ledger × List Event :=
  let serial := serialOf rows
  let lowId := plant ++ "_" ++ serial ++ "_low_power"
  let dropId := plant ++ "_" ++ serial ++ "_power_drop"
  let present := presentPairs rows
  match present.reverse with
  | [] => (H, [])
  | (t1, v1) :: rest =>
    if v1 < 5000 ∧ present.length > 3 then
      match rest with
      | (t2, v2) :: (_t3, v3) :: _ =>
        if v2 < 5000 ∧ v3 < 5000 then
          let details := "start:" ++ fmtMinute (rest.get? 1 |>.map Prod.fst |>.getD 0)
            ++ ",end:" ++ fmtMinute t1 ++ ",value:" ++ fmtVal v1
          let msg := plant ++ ", inverter " ++ serial ++ " detects low power."
          let sent := sendTelegramAlert hour now sendOk H lowId (some details) msg
          (sent.1, [sent.2])
        else
          if v2 > 50000 then
            let details := "start:" ++ fmtMinute t2 ++ ",end:" ++ fmtMinute t1
              ++ ",from:" ++ fmtVal v2 ++ ",to:" ++ fmtVal v1
            let msg := plant ++ ", inverter " ++ serial ++ " detects high power drop."
            let sent := sendTelegramAlert hour now sendOk H dropId (some details) msg
            (sent.1, [sent.2])
          else
            (H, [])
      | _ => (H, [])
    else
      if (H lowId).isSome || (H dropId).isSome then
        (ledgerErase dropId (ledgerErase lowId H), [])
      else
        (H, [])

/-- Per-row sort key for `sort_values(by='value', ascending=False)`: missing
values order below every number, matching pandas' `na_position='last'` under a
descending sort. -/
def valW (r : Row) : WithBot ℚ :=
  match r.value with
  | none => ⊥
  | some v => (v : WithBot ℚ)

/-- Boolean version of the sort-key comparison, kept kernel-computable. -/
def valLeB : Option ℚ → Option ℚ → Bool
  | none, _ => true
  | some _, none => false
  | some a, some b => decide (a ≤ b)

/-- `a` precedes `b` in the descending sort. -/
def rowGE (a b : Row) : Prop := valW b ≤ valW a

instance : DecidableRel rowGE := fun a b =>
  decidable_of_iff (valLeB b.value a.value = true) (by
    obtain ⟨ta, sa, va⟩ := a
    obtain ⟨tb, sb, vb⟩ := b
    rcases va with _ | qa <;> rcases vb with _ | qb <;>
      simp [valLeB, valW, rowGE, WithBot.not_coe_le_bot, WithBot.coe_le_coe])

instance : IsTotal Row rowGE := ⟨fun a b => le_total (valW b) (valW a)⟩

instance : IsTrans Row rowGE := ⟨fun _ _ _ hab hbc => le_trans hbc hab⟩

/-- `data.sort_values(by='value', ascending=False)`. -/
def sortDescByValue (rows : List Row) : List Row := rows.insertionSort rowGE

/-- The delivery outcome of a non-suppressed dispatch: `delivered`/`failed`
inside the operating window according to the HTTP result, `offHours` outside. -/
def sendOutcome (hour : Nat) (sendOk : Bool) : Outcome :=
  if 8 ≤ hour ∧ hour ≤ 16 then (if sendOk then .delivered else .failed)
  else .offHours

/-- The underperformance issue id for one inverter. -/
def underId (plant serial : String) : String :=
  plant ++ "_" ++ serial ++ "_underperforming"

/-- The underperformance details fingerprint
(`f"value:{current_value},time:{time_str}"`). -/
def underDetails (tstar : Int) (r : Row) : String :=
  "value:" ++ fmtVal (roundTo2 (r.value.getD 0)) ++ ",time:" ++ fmtMinute tstar

/-- `data['value'].iloc[i] < data['value'].iloc[0] * 0.25`; a missing value
compares false, as `NaN` does in pandas. -/
def underFlagged (v0 : ℚ) (r : Row) : Bool :=
  match r.value with
  | some v => decide (v < v0 * (1 / 4))
  | none => false

/-- The dispatch a flagged row produces (none when the row is not flagged):
the observable footprint of one loop iteration of
`compare_latest_inverter_power` over a history with no entry for the row. -/
def underEvent (hour : Nat) (sendOk : Bool) (tstar : Int) (v0 : ℚ)
    (plant : String) (r : Row) : Option Event :=
  if underFlagged v0 r then
    some (.dispatch (underId plant r.serial) (some (underDetails tstar r))
      (sendOutcome hour sendOk))
  else none

/-- One iteration of the loop in `compare_latest_inverter_power`
(`pages/alert.py` lines 158-182), for a non-reference row `r`, threading the
history file state.  The resolution arm reloads the history, dispatches the
resolution, then pops from the pre-dispatch copy and saves it, exactly as the
source does. -/
def compareStep (hour : Nat) (now : Int) (sendOk : Bool) (plant : String)
    (tstar : Int) (v0 : ℚ) (acc : Ledger × List Event) (r : Row) :
    Ledger × List Event :=
  let H := acc.1
  let id := underId plant r.serial
  if underFlagged v0 r then
    let details := underDetails tstar r
    let msg := plant ++ ", inverter " ++ r.serial ++ " is underperforming with "
      ++ fmtVal (roundTo2 (r.value.getD 0)) ++ " kW."
    let sent := sendTelegramAlert hour now sendOk H id (some details) msg
    (sent.1, acc.2 ++ [sent.2])
  else
    if (H id).isSome then
      let rmsg := plant ++ ", inverter " ++ r.serial
        ++ " is now performing normally."
      let ev := (sendTelegramAlert hour now sendOk H (id ++ "_resolved") none
        rmsg).2
      (ledgerErase id H, acc.2 ++ [ev])
    else
      (H, acc.2)

/-- `compare_latest_inverter_power(data, plant_name)` (`pages/alert.py` lines
151-184): take the rows at the last timestamp carrying a value, sort them
descending by value, and when the top value exceeds 50 walk the remaining rows
flagging those below a quarter of it.  The loop indexes rows through
`data['serial'].unique()`, which coincides with walking the sorted tail because
each inverter contributes one row per timestamp.  The empty / value-less match
arms are unreachable under the caller's guards (the row realising
`lastPresentTime` passes the filter and sorts above any missing value). -/
def compareLatestInverterPower (hour : Nat) (now : Int) (sendOk : Bool)
    (H : Ledger) (plant : String) (rows : List Row) : Ledger × List Event :=
  match lastPresentTime rows with
  | none => (H, [])
  | some tstar =>
    match sortDescByValue (rows.filter fun r => r.time == tstar) with
    | [] => (H, [])
    | r0 :: rest =>
      match r0.value with
      | none => (H, [])
      | some v0 =>
        if v0 > 50 then
          rest.foldl (compareStep hour now sendOk plant tstar v0) (H, [])
        else
          (H, [])

/-- `filtered_data.sort_values(by='datetime')`. -/
def sortByTime (rows : List Row) : List Row :=
  rows.insertionSort fun a b => a.time ≤ b.time

/-- The gap-split marking of `pages/alert.py` lines 411-413 (and, identically,
`one_plant.py` lines 264-266 and `all_plant.py` lines 326-328): null out the
value of every row whose time is more than 900 seconds after the previous
row's; the first row has no predecessor (`diff()` is `NaN` there) and is kept. -/
def gapSplitAux (prev : Int) : List Row → List Row
  | [] => []
  | r :: rest =>
    { r with value := if r.time - prev > 15 * 60 then none else r.value }
      :: gapSplitAux r.time rest

/-- Entry point of the gap-split marking; see `gapSplitAux`. -/
def gapSplit : List Row → List Row
  | [] => []
  | r :: rest => r :: gapSplitAux r.time rest

/-- Per-device step of `process_and_visualize_data` (`pages/alert.py` lines
393-395): the low-power check runs only when `check_inverter_time` returned
`True`. -/
def processDevice (hour : Nat) (now : Int) (sendOk : Bool) (H : Ledger)
    (plant : String) (rows : List Row) : Ledger × List Event :=
  let tc := checkInverterTime hour now sendOk H plant rows
  if tc.upToDate then
    let lp := checkLowPowerPeriod hour now sendOk tc.ledger plant rows
    (lp.1, tc.events ++ lp.2)
  else
    (tc.ledger, tc.events)

/-- Accumulator of the per-plant loop: history state, events so far, the
concatenated data frame, and the deactivated serials. -/
structure PlantAcc where
  ledger : Ledger
  events : List Event
  df : List Row
  drop : List String

/-- The per-plant body of `process_and_visualize_data` (`pages/alert.py` lines
384-416).  `files` maps each serial to the contents of its CSV file, `none`
when the file does not exist (an inverter whose fetch returned no results).
Devices whose series has a non-missing value run the sequenced checks and join
the frame; all-missing devices are collected in `drop`.  When the frame is
nonempty, the deactivated warnings are emitted, the frame is restricted to
present values, time-sorted, gap-split, converted to kW, and handed to the peer
comparison. -/
def plantStep (hour : Nat) (now : Int) (sendOk : Bool) (plant : String)
    (acc : PlantAcc) (file : String × Option (List Row)) : PlantAcc :=
  match file.2 with
  | none => acc
  | some rows =>
    if rows.any fun r => r.value.isSome then
      let step := processDevice hour now sendOk acc.ledger plant rows
      ⟨step.1, acc.events ++ step.2, acc.df ++ rows, acc.drop⟩
    else
      ⟨acc.ledger, acc.events, acc.df, acc.drop ++ [file.1]⟩

/-- See `plantStep` for the loop body. -/
def processPlant (hour : Nat) (now : Int) (sendOk : Bool) (H : Ledger)
    (plant : String) (files : List (String × Option (List Row))) :
    Ledger × List Event :=
  let acc := files.foldl (plantStep hour now sendOk plant) ⟨H, [], [], []⟩
  if acc.df.isEmpty then
    (acc.ledger, acc.events)
  else
    let deact := acc.drop.map fun s => Event.deactivated plant s
    let filtered := sortByTime (acc.df.filter fun r => r.value.isSome)
    let marked := gapSplit filtered
    let kw := marked.map fun r => { r with value := r.value.map (· / 1000) }
    let cmp := compareLatestInverterPower hour now sendOk acc.ledger plant kw
    (cmp.1, acc.events ++ deact ++ cmp.2)

/-- A raw vendor entry of `fetch_data_for_inverter` (`pages/alert.py` lines
316-327): `start` epoch (possibly absent), `value` (possibly absent or
non-numeric, coerced to `none`), units string. -/
structure RawEntry where
  start : Option Int
  value : Option ℚ
  units : String
  deriving DecidableEq, Repr

/-- The result-building loop of `fetch_data_for_inverter` (`pages/alert.py`
lines 317-327): keep exactly the entries carrying an epoch, converting each to
a row. -/
def buildResults (serial : String) (entries : List RawEntry) : List Row :=
  entries.filterMap fun e => e.start.map fun t => ⟨t, serial, e.value⟩

/-- Maximum of a list of rationals (`data['value'].iloc[0]` after the
descending sort), 0 for the empty list. -/
def maxQ : List ℚ → ℚ
  | [] => 0
  | v :: l => l.foldl max v

/-- A sample message history holding one entry of each alert kind for plant
`P`: serial `S` outdated and low_power, serial `B` underperforming. -/
def sampleLedger : Ledger :=
  ledgerInsert "P_S_outdated" ⟨50, none, "m1"⟩
    (ledgerInsert "P_S_low_power" ⟨60, none, "m2"⟩
      (ledgerInsert "P_B_underperforming" ⟨70, none, "m3"⟩ emptyLedger))

/-! ## Helper lemmas -/

theorem append_right_inj {a b u : String} (h : a ++ u = b ++ u) : a = b := by
  apply String.ext
  have hd := congrArg String.data h
  rw [String.data_append, String.data_append] at hd
  exact List.append_cancel_right hd

theorem append_left_inj {p a b : String} (h : p ++ a = p ++ b) : a = b := by
  apply String.ext
  have hd := congrArg String.data h
  rw [String.data_append, String.data_append] at hd
  exact List.append_cancel_left hd

/-- Issue ids built from the same plant and serial but different-length kind
suffixes are distinct. -/
theorem issueId_ne_of_suffix_length {p s u v : String}
    (h : u.length ≠ v.length) : p ++ "_" ++ s ++ u ≠ p ++ "_" ++ s ++ v := by
  intro he
  apply h
  have hl := congrArg String.length he
  simp only [String.length_append] at hl
  omega

/-- Issue ids of the same kind identify the serial (within one plant). -/
theorem issueId_serial_inj {p s₁ s₂ u : String}
    (h : p ++ "_" ++ s₁ ++ u = p ++ "_" ++ s₂ ++ u) : s₁ = s₂ :=
  append_left_inj (append_right_inj h)

theorem cleanOld_some {now : Int} {H : Ledger} {k : String} {e : LedgerEntry} :
    cleanOldMessages now H k = some e ↔
      H k = some e ∧ now - 15 * 60 < e.timestamp := by
  unfold cleanOldMessages
  cases h : H k with
  | none => simp
  | some e' =>
    simp only [Option.some_bind]
    constructor
    · intro hc
      split at hc
      · exact ⟨by rw [Option.some_inj.mp hc], by
          cases Option.some_inj.mp hc; assumption⟩
      · exact absurd hc (by simp)
    · rintro ⟨he, ht⟩
      cases Option.some_inj.mp he
      rw [if_pos ht]

theorem cleanOld_none_of_none {now : Int} {H : Ledger} {k : String}
    (h : H k = none) : cleanOldMessages now H k = none := by
  unfold cleanOldMessages
  rw [h]
  rfl

theorem sendTelegramAlert_offHours {hour : Nat} {now : Int} {sendOk : Bool}
    {H : Ledger} {k m : String} {d : Option String}
    (h : ¬(8 ≤ hour ∧ hour ≤ 16)) :
    sendTelegramAlert hour now sendOk H k d m = (H, .dispatch k d .offHours) := by
  unfold sendTelegramAlert
  rw [if_neg h]

theorem sendTelegramAlert_in_window {hour : Nat} {now : Int} {sendOk : Bool}
    {H : Ledger} {k m : String} {d : Option String}
    (hwin : 8 ≤ hour ∧ hour ≤ 16) :
    sendTelegramAlert hour now sendOk H k d m =
      match cleanOldMessages now H k with
      | some e =>
        if now - e.timestamp < 15 * 60 ∧ e.details = d then
          (H, .dispatch k d .dedupSuppressed)
        else
          (ledgerInsert k ⟨now, d, m⟩ (cleanOldMessages now H),
            .dispatch k d (if sendOk then .delivered else .failed))
      | none =>
        (ledgerInsert k ⟨now, d, m⟩ (cleanOldMessages now H),
          .dispatch k d (if sendOk then .delivered else .failed)) := by
  unfold sendTelegramAlert
  rw [if_pos hwin]

theorem sendTelegramAlert_of_none {hour : Nat} {now : Int} {sendOk : Bool}
    {H : Ledger} {k m : String} {d : Option String} (h : H k = none) :
    sendTelegramAlert hour now sendOk H k d m =
      (if 8 ≤ hour ∧ hour ≤ 16 then
          ledgerInsert k ⟨now, d, m⟩ (cleanOldMessages now H)
        else H,
        .dispatch k d (sendOutcome hour sendOk)) := by
  by_cases hwin : 8 ≤ hour ∧ hour ≤ 16
  · rw [sendTelegramAlert_in_window hwin, cleanOld_none_of_none h, if_pos hwin]
    simp [sendOutcome, hwin]
  · rw [sendTelegramAlert_offHours hwin, if_neg hwin]
    simp [sendOutcome, hwin]

/-- The ledger saved by `send_telegram_alert` does not depend on whether the
HTTP post succeeds: the save happens before the post. -/
theorem sendTelegramAlert_fst_sendOk {hour : Nat} {now : Int}
    {H : Ledger} {k m : String} {d : Option String} (ok₁ ok₂ : Bool) :
    (sendTelegramAlert hour now ok₁ H k d m).1 =
      (sendTelegramAlert hour now ok₂ H k d m).1 := by
  by_cases hwin : 8 ≤ hour ∧ hour ≤ 16
  · rw [sendTelegramAlert_in_window hwin, sendTelegramAlert_in_window hwin]
    cases cleanOldMessages now H k with
    | none => rfl
    | some e =>
      dsimp only
      split <;> rfl
  · rw [sendTelegramAlert_offHours hwin, sendTelegramAlert_offHours hwin]

theorem sendTelegramAlert_snd (hour : Nat) (now : Int) (sendOk : Bool)
    (H : Ledger) (k m : String) (d : Option String) :
    ∃ o, (sendTelegramAlert hour now sendOk H k d m).2 = .dispatch k d o := by
  by_cases hwin : 8 ≤ hour ∧ hour ≤ 16
  · rw [sendTelegramAlert_in_window hwin]
    cases cleanOldMessages now H k with
    | none => exact ⟨_, rfl⟩
    | some e =>
      dsimp only
      split
      · exact ⟨_, rfl⟩
      · exact ⟨_, rfl⟩
  · rw [sendTelegramAlert_offHours hwin]
    exact ⟨_, rfl⟩

theorem self_ne_append_resolved (a : String) : a ≠ a ++ "_resolved" := by
  intro h
  have hl := congrArg String.length h
  rw [String.length_append] at hl
  have h9 : ("_resolved" : String).length = 9 := rfl
  omega

/-! ## Claims -/

/-- **C1** (confirmed).  Inside the operating window, a notification attempt
for issue key `k` with details `d` at time `now` is suppressed — no send
happens, `False` is returned, and the stored history is left exactly as it was
— if and only if the history holds an entry for `k` recorded within the 15
minutes before `now` whose stored details equal `d` by exact string equality
(entries are always recorded in the past, hypothesis `hpast`). -/
theorem dedup_suppression_iff (hour : Nat) (now : Int) (sendOk : Bool)
    (H : Ledger) (k m : String) (d : Option String)
    (hwin : 8 ≤ hour ∧ hour ≤ 16)
    (hpast : ∀ e, H k = some e → e.timestamp ≤ now) :
    ((sendTelegramAlert hour now sendOk H k d m).2
        = Event.dispatch k d Outcome.dedupSuppressed
      ↔ ∃ e, H k = some e ∧ now - e.timestamp < 15 * 60 ∧ e.details = d)
    ∧ ((sendTelegramAlert hour now sendOk H k d m).2
        = Event.dispatch k d Outcome.dedupSuppressed
      → (sendTelegramAlert hour now sendOk H k d m).1 = H) := by
  rw [sendTelegramAlert_in_window hwin]
  cases hc : cleanOldMessages now H k with
  | none =>
    have hno : ¬∃ e, H k = some e ∧ now - e.timestamp < 15 * 60 ∧ e.details = d := by
      rintro ⟨e, he, ht, -⟩
      have : cleanOldMessages now H k = some e := cleanOld_some.mpr ⟨he, by omega⟩
      rw [hc] at this
      exact Option.noConfusion this
    constructor
    · constructor
      · intro hev
        dsimp only at hev
        cases sendOk <;> simp at hev
      · intro hex
        exact absurd hex hno
    · intro hev
      dsimp only at hev
      cases sendOk <;> simp at hev
  | some e =>
    obtain ⟨he, ht⟩ := cleanOld_some.mp hc
    dsimp only
    by_cases hcond : now - e.timestamp < 15 * 60 ∧ e.details = d
    · rw [if_pos hcond]
      exact ⟨⟨fun _ => ⟨e, he, hcond.1, hcond.2⟩, fun _ => rfl⟩, fun _ => rfl⟩
    · rw [if_neg hcond]
      have hno : ¬∃ e', H k = some e' ∧ now - e'.timestamp < 15 * 60 ∧ e'.details = d := by
        rintro ⟨e', he', ht', hd'⟩
        have : cleanOldMessages now H k = some e' := cleanOld_some.mpr ⟨he', by omega⟩
        rw [hc] at this
        cases Option.some_inj.mp this
        exact hcond ⟨ht', hd'⟩
      constructor
      · constructor
        · intro hev
          dsimp only at hev
          cases sendOk <;> simp at hev
        · intro hex
          exact absurd hex hno
      · intro hev
        dsimp only at hev
        cases sendOk <;> simp at hev

/-- Witness for `dedup_suppression_iff`: the spec's scenario.  An entry for
`k` with details `"v1"` recorded at `t = 1000`; an identical attempt 5 minutes
later is suppressed, an attempt with details `"v2"` 5 minutes later is not,
and an identical attempt 16 minutes later is not. -/
theorem dedup_suppression_iff_witness :
    (sendTelegramAlert 10 1300 true
        (ledgerInsert "k" ⟨1000, some "v1", "m"⟩ emptyLedger) "k" (some "v1") "m").2
      = Event.dispatch "k" (some "v1") Outcome.dedupSuppressed
    ∧ (sendTelegramAlert 10 1300 true
        (ledgerInsert "k" ⟨1000, some "v1", "m"⟩ emptyLedger) "k" (some "v2") "m").2
      ≠ Event.dispatch "k" (some "v2") Outcome.dedupSuppressed
    ∧ (sendTelegramAlert 10 1960 true
        (ledgerInsert "k" ⟨1000, some "v1", "m"⟩ emptyLedger) "k" (some "v1") "m").2
      ≠ Event.dispatch "k" (some "v1") Outcome.dedupSuppressed := by
  have hpast5 : ∀ e, (ledgerInsert "k" ⟨1000, some "v1", "m"⟩ emptyLedger) "k"
      = some e → e.timestamp ≤ 1300 := by
    intro e he
    have : (⟨1000, some "v1", "m"⟩ : LedgerEntry) = e := by
      have hb : (ledgerInsert "k" ⟨1000, some "v1", "m"⟩ emptyLedger) "k"
          = some ⟨1000, some "v1", "m"⟩ := by decide
      rw [hb] at he
      exact Option.some_inj.mp he
    rw [← this]
    decide
  have hpast16 : ∀ e, (ledgerInsert "k" ⟨1000, some "v1", "m"⟩ emptyLedger) "k"
      = some e → e.timestamp ≤ 1960 := by
    intro e he
    have : (⟨1000, some "v1", "m"⟩ : LedgerEntry) = e := by
      have hb : (ledgerInsert "k" ⟨1000, some "v1", "m"⟩ emptyLedger) "k"
          = some ⟨1000, some "v1", "m"⟩ := by decide
      rw [hb] at he
      exact Option.some_inj.mp he
    rw [← this]
    decide
  refine ⟨?_, ?_, ?_⟩
  · exact (dedup_suppression_iff 10 1300 true _ "k" "m" (some "v1")
      (by decide) hpast5).1.mpr ⟨⟨1000, some "v1", "m"⟩, by decide, by decide, rfl⟩
  · intro h
    obtain ⟨e, he, -, hd⟩ := (dedup_suppression_iff 10 1300 true _ "k" "m"
      (some "v2") (by decide) hpast5).1.mp h
    have hb : (ledgerInsert "k" ⟨1000, some "v1", "m"⟩ emptyLedger) "k"
        = some ⟨1000, some "v1", "m"⟩ := by decide
    rw [hb] at he
    cases Option.some_inj.mp he
    exact Option.noConfusion hd fun h1 => String.noConfusion h1 (by
      intro hdata
      exact absurd hdata (by decide))
  · intro h
    obtain ⟨e, he, ht, -⟩ := (dedup_suppression_iff 10 1960 true _ "k" "m"
      (some "v1") (by decide) hpast16).1.mp h
    have hb : (ledgerInsert "k" ⟨1000, some "v1", "m"⟩ emptyLedger) "k"
        = some ⟨1000, some "v1", "m"⟩ := by decide
    rw [hb] at he
    cases Option.some_inj.mp he
    exact absurd ht (by decide)

/-- **C3** counterexample.  At 07:00 (outside the 08:00-16:00 window) a
notification attempt for a fresh key leaves the history without any entry for
that key, while the identical attempt at 08:00 creates the entry: outside the
window the dispatcher does NOT perform the ledger bookkeeping the claim
asserts. -/
theorem offHours_bookkeeping_counterexample :
    (sendTelegramAlert 7 1000 true emptyLedger "k" (some "d") "m").1 "k" = none
    ∧ (sendTelegramAlert 8 1000 true emptyLedger "k" (some "d") "m").1 "k"
        = some ⟨1000, some "d", "m"⟩ := by
  constructor
  · decide
  · decide

/-- **C3** (corrected).  Outside the 08:00-16:00 window, `send_telegram_alert`
suppresses delivery and returns `False` immediately, performing no ledger
bookkeeping at all: the history is returned untouched (no entry created or
updated), unlike inside the window. -/
theorem offHours_suppresses_without_bookkeeping (hour : Nat) (now : Int)
    (sendOk : Bool) (H : Ledger) (k m : String) (d : Option String)
    (h : ¬(8 ≤ hour ∧ hour ≤ 16)) :
    sendTelegramAlert hour now sendOk H k d m
      = (H, Event.dispatch k d Outcome.offHours) :=
  sendTelegramAlert_offHours h

/-- Witness for `offHours_suppresses_without_bookkeeping` at 17:00. -/
theorem offHours_suppresses_without_bookkeeping_witness :
    sendTelegramAlert 17 1000 true emptyLedger "k" (some "d") "m"
      = (emptyLedger, Event.dispatch "k" (some "d") Outcome.offHours) :=
  offHours_suppresses_without_bookkeeping 17 1000 true emptyLedger "k" "m"
    (some "d") (by decide)

/-- **C8** (confirmed).  The history `send_telegram_alert` saves does not
depend on whether the subsequent HTTP post succeeds (the save happens before
the post, `pages/alert.py` line 277 vs 289), and an attempt that passes
deduplication inside the operating window records `(now, details, message)`
under its issue id whatever the delivery outcome. -/
theorem ledger_independent_of_delivery (hour : Nat) (now : Int) (H : Ledger)
    (k m : String) (d : Option String) :
    (∀ ok₁ ok₂ : Bool, (sendTelegramAlert hour now ok₁ H k d m).1
        = (sendTelegramAlert hour now ok₂ H k d m).1)
    ∧ ((8 ≤ hour ∧ hour ≤ 16) →
        (¬∃ e, H k = some e ∧ now - e.timestamp < 15 * 60 ∧ e.details = d) →
        ∀ ok : Bool, (sendTelegramAlert hour now ok H k d m).1 k
          = some ⟨now, d, m⟩) := by
  constructor
  · exact fun ok₁ ok₂ => sendTelegramAlert_fst_sendOk ok₁ ok₂
  · intro hwin hned ok
    rw [sendTelegramAlert_in_window hwin]
    cases hc : cleanOldMessages now H k with
    | none => simp [ledgerInsert]
    | some e =>
      obtain ⟨he, ht⟩ := cleanOld_some.mp hc
      dsimp only
      rw [if_neg fun hcond => hned ⟨e, he, hcond.1, hcond.2⟩]
      simp [ledgerInsert]

/-- Witness for `ledger_independent_of_delivery`: a fresh key inside the
window is recorded both under a successful and under a failed post. -/
theorem ledger_independent_of_delivery_witness :
    (sendTelegramAlert 10 500 true emptyLedger "k" (some "d") "m").1 "k"
      = some ⟨500, some "d", "m"⟩
    ∧ (sendTelegramAlert 10 500 false emptyLedger "k" (some "d") "m").1 "k"
      = some ⟨500, some "d", "m"⟩ := by
  have hned : ¬∃ e, emptyLedger "k" = some e
      ∧ (500 : Int) - e.timestamp < 15 * 60 ∧ e.details = some "d" := by
    rintro ⟨e, he, -⟩
    exact Option.noConfusion he
  exact ⟨(ledger_independent_of_delivery 10 500 emptyLedger "k" "m"
      (some "d")).2 (by decide) hned true,
    (ledger_independent_of_delivery 10 500 emptyLedger "k" "m"
      (some "d")).2 (by decide) hned false⟩

/-- **C4** (confirmed).  For a series with at least one non-missing sample
(`t_last` its timestamp), the `outdated` issue fires if and only if
`now - t_last` strictly exceeds 30 minutes; when it fires the only dispatch is
the outdated alert, and when it does not fire no outdated alert is
dispatched. -/
theorem staleness_boundary (hour : Nat) (now : Int) (sendOk : Bool)
    (H : Ledger) (plant : String) (rows : List Row) (tlast : Int)
    (hlast : lastPresentTime rows = some tlast) :
    ((checkInverterTime hour now sendOk H plant rows).upToDate = false
      ↔ 30 * 60 < now - tlast)
    ∧ (30 * 60 < now - tlast →
        ∃ o, (checkInverterTime hour now sendOk H plant rows).events
          = [Event.dispatch (plant ++ "_" ++ serialOf rows ++ "_outdated")
              (some ("last_update:" ++ fmtMinute tlast)) o])
    ∧ (¬30 * 60 < now - tlast →
        ∀ d o, Event.dispatch (plant ++ "_" ++ serialOf rows ++ "_outdated") d o
          ∉ (checkInverterTime hour now sendOk H plant rows).events) := by
  unfold checkInverterTime
  rw [hlast]
  dsimp only
  by_cases hstale : now - 30 * 60 > tlast
  · rw [if_pos hstale]
    refine ⟨by simpa using by omega, fun _ => ?_, fun hfresh => absurd (by omega) hfresh⟩
    obtain ⟨o, ho⟩ := sendTelegramAlert_snd hour now sendOk H
      (plant ++ "_" ++ serialOf rows ++ "_outdated")
      (plant ++ ", inverter " ++ serialOf rows ++ " outdated.\nLast update: "
        ++ fmtMinute tlast)
      (some ("last_update:" ++ fmtMinute tlast))
    exact ⟨o, by rw [ho]⟩
  · rw [if_neg hstale]
    have hfresh : ¬30 * 60 < now - tlast := by omega
    refine ⟨?_, fun h => absurd h hfresh, fun _ d o hmem => ?_⟩
    · constructor
      · intro hf
        split at hf <;> exact absurd hf (by simp)
      · intro h
        exact absurd h hfresh
    by_cases hres : (H (plant ++ "_" ++ serialOf rows ++ "_outdated")).isSome
    · rw [if_pos hres] at hmem
      dsimp only at hmem
      obtain ⟨o', ho'⟩ := sendTelegramAlert_snd hour now sendOk H
        ((plant ++ "_" ++ serialOf rows ++ "_outdated") ++ "_resolved")
        (plant ++ ", inverter " ++ serialOf rows ++ " is now up-to-date.") none
      rw [ho'] at hmem
      simp only [List.mem_singleton, Event.dispatch.injEq] at hmem
      exact self_ne_append_resolved _ hmem.1
    · rw [if_neg hres] at hmem
      simp at hmem

/-- Witness for `staleness_boundary`: a single sample at `t = 0`; at
`now = 1860` (31 minutes later) the outdated issue fires, at `now = 1740`
(29 minutes later) it does not. -/
theorem staleness_boundary_witness :
    (checkInverterTime 10 1860 true emptyLedger "P" [⟨0, "S", some 1⟩]).upToDate
      = false
    ∧ (checkInverterTime 10 1740 true emptyLedger "P"
        [⟨0, "S", some 1⟩]).upToDate = true := by
  constructor
  · exact (staleness_boundary 10 1860 true emptyLedger "P" [⟨0, "S", some 1⟩] 0
      (by decide)).1.mpr (by decide)
  · have hiff := (staleness_boundary 10 1740 true emptyLedger "P"
      [⟨0, "S", some 1⟩] 0 (by decide)).1
    cases h : (checkInverterTime 10 1740 true emptyLedger "P"
        [⟨0, "S", some 1⟩]).upToDate with
    | false => exact absurd (hiff.mp h) (by decide)
    | true => rfl

/-- **C2** counterexample.  A series whose non-missing values are exactly
`60000` then `3000` (prior high, current low, only two points) produces NO
dispatch at all: the `value.size > 3` guard of `check_low_power_period` covers
the power-drop branch too, so power_drop does not fire on two points as the
claim asserts. -/
theorem power_drop_two_points_counterexample :
    (checkLowPowerPeriod 10 1000 true emptyLedger "P"
      [⟨0, "S", some 60000⟩, ⟨900, "S", some 3000⟩]).2 = [] := by
  decide

/-- **C2** (corrected).  The power-drop branch sits under the same
`value.size > 3` guard as sustained low power, so it requires at least four
non-missing points, not two.  Given at least four non-missing values whose
last is below 5000 and second-to-last above 50000, the power-drop issue fires
as the single dispatch (and not low_power); with only the two trailing points
`60000, 3000` nothing fires at all (see the counterexample). -/
theorem power_drop_requires_four_points (hour : Nat) (now : Int) (sendOk : Bool)
    (H : Ledger) (plant : String) (rows : List Row) (t1 t2 : Int) (v1 v2 : ℚ)
    (rest : List (Int × ℚ))
    (hrev : (presentPairs rows).reverse = (t1, v1) :: (t2, v2) :: rest)
    (hlen : 3 < (presentPairs rows).length)
    (h1 : v1 < 5000) (h2 : 50000 < v2) :
    ∃ d o, (checkLowPowerPeriod hour now sendOk H plant rows).2
      = [Event.dispatch (plant ++ "_" ++ serialOf rows ++ "_power_drop")
          d o] := by
  have hlen' : 0 < rest.length := by
    have hc := congrArg List.length hrev
    rw [List.length_reverse] at hc
    simp only [List.length_cons] at hc
    omega
  obtain ⟨t3, v3, rest₂, rfl⟩ : ∃ t3 v3 rest₂, rest = (t3, v3) :: rest₂ := by
    cases rest with
    | nil => simp at hlen'
    | cons q rs => exact ⟨q.1, q.2, rs, by simp⟩
  unfold checkLowPowerPeriod
  dsimp only
  rw [hrev]
  dsimp only
  rw [if_pos ⟨h1, hlen⟩]
  rw [if_neg (fun hc => absurd h2 (by push_neg; linarith [hc.1]))]
  rw [if_pos h2]
  obtain ⟨o, ho⟩ := sendTelegramAlert_snd hour now sendOk H
    (plant ++ "_" ++ serialOf rows ++ "_power_drop")
    (plant ++ ", inverter " ++ serialOf rows ++ " detects high power drop.")
    (some ("start:" ++ fmtMinute t2 ++ ",end:" ++ fmtMinute t1 ++ ",from:"
      ++ fmtVal v2 ++ ",to:" ++ fmtVal v1))
  exact ⟨_, o, by rw [ho]⟩

/-- Witness for `power_drop_requires_four_points`: four samples ending
`..., 60000, 3000`. -/
theorem power_drop_requires_four_points_witness :
    ∃ d o, (checkLowPowerPeriod 10 3000 true emptyLedger "P"
      [⟨0, "S", some 60000⟩, ⟨900, "S", some 60000⟩, ⟨1800, "S", some 60000⟩,
        ⟨2700, "S", some 3000⟩]).2
      = [Event.dispatch ("P" ++ "_" ++ serialOf [⟨0, "S", some 60000⟩,
          ⟨900, "S", some 60000⟩, ⟨1800, "S", some 60000⟩,
          ⟨2700, "S", some 3000⟩] ++ "_power_drop") d o] :=
  power_drop_requires_four_points 10 3000 true emptyLedger "P"
    [⟨0, "S", some 60000⟩, ⟨900, "S", some 60000⟩, ⟨1800, "S", some 60000⟩,
      ⟨2700, "S", some 3000⟩] 2700 1800 3000 60000 [(900, 60000), (0, 60000)]
    (by decide) (by decide) (by decide) (by decide)

theorem gapSplitAux_consec :
    ∀ (l : List Row) (prev : Int) (i : Nat) (p r : Row),
      l.get? i = some p → l.get? (i + 1) = some r →
      (gapSplitAux prev l).get? (i + 1)
        = some { r with value := if r.time - p.time > 15 * 60 then none
            else r.value }
  | [], _, i, p, r, hp, _ => by simp at hp
  | x :: xs, prev, 0, p, r, hp, hr => by
    cases Option.some_inj.mp (by simpa using hp)
    cases xs with
    | nil => simp at hr
    | cons y ys =>
      cases Option.some_inj.mp (by simpa using hr)
      rfl
  | x :: xs, prev, i + 1, p, r, hp, hr => by
    have ih := gapSplitAux_consec xs x.time i p r (by simpa using hp)
      (by simpa using hr)
    simpa [gapSplitAux] using ih

theorem gapSplit_consec (rows : List Row) (i : Nat) (p r : Row)
    (hp : rows.get? i = some p) (hr : rows.get? (i + 1) = some r) :
    (gapSplit rows).get? (i + 1)
      = some { r with value := if r.time - p.time > 15 * 60 then none
          else r.value } := by
  cases rows with
  | nil => simp at hp
  | cons x xs =>
    cases i with
    | zero =>
      cases Option.some_inj.mp (by simpa using hp)
      cases xs with
      | nil => simp at hr
      | cons y ys =>
        cases Option.some_inj.mp (by simpa using hr)
        rfl
    | succ j =>
      have ih := gapSplitAux_consec xs x.time j p r (by simpa using hp)
        (by simpa using hr)
      simpa [gapSplit] using ih

/-- **C5** (confirmed).  In the sorted, all-present frame the continuity pass
works on, a sample whose delta to the previous sample exceeds 900 seconds has
its value nulled while its timestamp row is retained; a delta of at most 900
seconds keeps the value. -/
theorem gap_split_marks_later_sample (rows : List Row) (i : Nat) (p r : Row)
    (hsorted : List.Chain' (fun a b => a.time ≤ b.time) rows)
    (hp : rows.get? i = some p) (hr : rows.get? (i + 1) = some r)
    (hpp : p.value.isSome) (hpr : r.value.isSome) :
    ∃ r', (gapSplit rows).get? (i + 1) = some r'
      ∧ r'.time = r.time
      ∧ (r'.value = none ↔ 15 * 60 < r.time - p.time)
      ∧ (r.time - p.time ≤ 15 * 60 → r'.value = r.value) := by
  refine ⟨_, gapSplit_consec rows i p r hp hr, rfl, ?_, ?_⟩
  · by_cases hgap : r.time - p.time > 15 * 60
    · rw [if_pos hgap]
      exact ⟨fun _ => hgap, fun _ => rfl⟩
    · simp only [if_neg hgap]
      constructor
      · intro hnone
        rw [hnone] at hpr
        exact absurd hpr (by simp)
      · intro hlt
        exact absurd hlt hgap
  · intro hle
    simp only [if_neg (show ¬r.time - p.time > 15 * 60 by omega)]

/-- Witness for `gap_split_marks_later_sample`: two present samples 901
seconds apart; the later one is nulled, its timestamp kept. -/
theorem gap_split_marks_later_sample_witness :
    ∃ r', (gapSplit [⟨0, "S", some 1⟩, ⟨901, "S", some 2⟩]).get? 1 = some r'
      ∧ r'.time = (901 : Int)
      ∧ (r'.value = none ↔ (15 * 60 : Int) < 901 - 0)
      ∧ ((901 : Int) - 0 ≤ 15 * 60 → r'.value = some 2) := by
  have h := gap_split_marks_later_sample [⟨0, "S", some 1⟩, ⟨901, "S", some 2⟩]
    0 ⟨0, "S", some 1⟩ ⟨901, "S", some 2⟩
    (by simp) (by decide) (by decide) (by decide) (by decide)
  simpa using h

/-- **C7** counterexample.  Clearing a `low_power` condition whose ledger
entry exists (series back at 60000) removes the entry but dispatches NO
resolution message, contradicting the claim that every issue kind gets a
resolution message on clearing. -/
theorem resolution_low_power_silent_counterexample :
    (checkLowPowerPeriod 10 3000 true
      (ledgerInsert "P_S_low_power" ⟨2500, some "x", "m"⟩ emptyLedger) "P"
      [⟨0, "S", some 60000⟩]).2 = []
    ∧ (checkLowPowerPeriod 10 3000 true
      (ledgerInsert "P_S_low_power" ⟨2500, some "x", "m"⟩ emptyLedger) "P"
      [⟨0, "S", some 60000⟩]).1 "P_S_low_power" = none := by
  constructor
  · decide
  · decide

/-- **C7** (corrected).  Resolving an issue key with no ledger entry returns
nothing, leaves the ledger unchanged and dispatches nothing; resolving a key
with an existing entry removes the entry, and a resolution message is
dispatched exactly once per clearing for the `outdated` and `underperforming`
kinds — but for the `low_power` and `power_drop` kinds the entry is removed
silently, with no resolution message at all. -/
theorem resolution_semantics (hour : Nat) (now : Int) (sendOk : Bool)
    (H : Ledger) (plant : String) :
    (∀ rows tlast, lastPresentTime rows = some tlast →
      ¬(now - 30 * 60 > tlast) →
      (H (plant ++ "_" ++ serialOf rows ++ "_outdated") = none →
        (checkInverterTime hour now sendOk H plant rows).ledger = H
        ∧ (checkInverterTime hour now sendOk H plant rows).events = [])
      ∧ ((H (plant ++ "_" ++ serialOf rows ++ "_outdated")).isSome →
        (checkInverterTime hour now sendOk H plant rows).ledger
          = ledgerErase (plant ++ "_" ++ serialOf rows ++ "_outdated") H
        ∧ ∃ o, (checkInverterTime hour now sendOk H plant rows).events
            = [Event.dispatch
                (plant ++ "_" ++ serialOf rows ++ "_outdated" ++ "_resolved")
                none o]))
    ∧ (∀ rows t1 v1 prest, (presentPairs rows).reverse = (t1, v1) :: prest →
      ¬(v1 < 5000 ∧ (presentPairs rows).length > 3) →
      (H (plant ++ "_" ++ serialOf rows ++ "_low_power") = none →
        H (plant ++ "_" ++ serialOf rows ++ "_power_drop") = none →
        checkLowPowerPeriod hour now sendOk H plant rows = (H, []))
      ∧ (checkLowPowerPeriod hour now sendOk H plant rows).2 = []
      ∧ ((H (plant ++ "_" ++ serialOf rows ++ "_low_power")).isSome
            ∨ (H (plant ++ "_" ++ serialOf rows ++ "_power_drop")).isSome →
        (checkLowPowerPeriod hour now sendOk H plant rows).1
            (plant ++ "_" ++ serialOf rows ++ "_low_power") = none
        ∧ (checkLowPowerPeriod hour now sendOk H plant rows).1
            (plant ++ "_" ++ serialOf rows ++ "_power_drop") = none))
    ∧ (∀ t sA sB vA vB, (50 : ℚ) < vA → vA * (1 / 4) ≤ vB → vB ≤ vA →
      (H (underId plant sB) = none →
        compareLatestInverterPower hour now sendOk H plant
          [⟨t, sA, some vA⟩, ⟨t, sB, some vB⟩] = (H, []))
      ∧ ((H (underId plant sB)).isSome →
        (compareLatestInverterPower hour now sendOk H plant
            [⟨t, sA, some vA⟩, ⟨t, sB, some vB⟩]).1
          = ledgerErase (underId plant sB) H
        ∧ ∃ o, (compareLatestInverterPower hour now sendOk H plant
            [⟨t, sA, some vA⟩, ⟨t, sB, some vB⟩]).2
          = [Event.dispatch (underId plant sB ++ "_resolved") none o])) := by
  refine ⟨?_, ?_, ?_⟩
  · intro rows tlast hlast hfresh
    unfold checkInverterTime
    rw [hlast]
    dsimp only
    rw [if_neg hfresh]
    constructor
    · intro habs
      rw [if_neg (by rw [habs]; simp)]
      exact ⟨rfl, rfl⟩
    · intro hsome
      rw [if_pos hsome]
      refine ⟨rfl, ?_⟩
      obtain ⟨o, ho⟩ := sendTelegramAlert_snd hour now sendOk H
        (plant ++ "_" ++ serialOf rows ++ "_outdated" ++ "_resolved")
        (plant ++ ", inverter " ++ serialOf rows ++ " is now up-to-date.") none
      exact ⟨o, by rw [ho]⟩
  · intro rows t1 v1 prest hrev hcond
    unfold checkLowPowerPeriod
    dsimp only
    rw [hrev]
    dsimp only
    rw [if_neg hcond]
    refine ⟨?_, ?_, ?_⟩
    · intro hl hd
      rw [if_neg (by rw [hl, hd]; simp)]
    · split
      · rfl
      · rfl
    · intro hor
      rw [if_pos (by
        rcases hor with h | h
        · simp [h]
        · simp [h])]
      constructor
      · simp [ledgerErase]
      · simp [ledgerErase]
  · intro t sA sB vA vB hA hq hBA
    have hgeAB : rowGE ⟨t, sA, some vA⟩ ⟨t, sB, some vB⟩ := by
      show valW _ ≤ valW _
      unfold valW
      dsimp only
      exact_mod_cast hBA
    have hsort : sortDescByValue [⟨t, sA, some vA⟩, ⟨t, sB, some vB⟩]
        = [⟨t, sA, some vA⟩, ⟨t, sB, some vB⟩] := by
      unfold sortDescByValue
      simp only [List.insertionSort, List.orderedInsert]
      rw [if_pos hgeAB]
    have hlpt : lastPresentTime [(⟨t, sA, some vA⟩ : Row), ⟨t, sB, some vB⟩]
        = some t := rfl
    have hfil : List.filter (fun r => r.time == t)
        [(⟨t, sA, some vA⟩ : Row), ⟨t, sB, some vB⟩]
        = [⟨t, sA, some vA⟩, ⟨t, sB, some vB⟩] := by
      rw [List.filter_eq_self]
      intro a ha
      simp only [List.mem_cons, List.mem_singleton] at ha
      rcases ha with rfl | rfl | h
      · exact beq_self_eq_true t
      · exact beq_self_eq_true t
      · exact absurd h (List.not_mem_nil a)
    have hdec : underFlagged vA ⟨t, sB, some vB⟩ = false := by
      unfold underFlagged
      exact decide_eq_false (not_lt.mpr hq)
    unfold compareLatestInverterPower
    rw [hlpt]
    dsimp only
    rw [hfil, hsort]
    dsimp only
    rw [if_pos hA]
    show _ ∧ _
    rw [List.foldl_cons, List.foldl_nil]
    unfold compareStep
    dsimp only
    rw [if_neg (show ¬underFlagged vA ⟨t, sB, some vB⟩ = true by
      rw [hdec]; simp)]
    constructor
    · intro habs
      rw [if_neg (by rw [habs]; simp)]
    · intro hsome
      rw [if_pos hsome]
      refine ⟨rfl, ?_⟩
      obtain ⟨o, ho⟩ := sendTelegramAlert_snd hour now sendOk H
        (underId plant sB ++ "_resolved")
        (plant ++ ", inverter " ++ sB ++ " is now performing normally.") none
      exact ⟨o, by rw [ho]; rfl⟩

/-- Witness for `resolution_semantics`: concrete resolutions of each kind
against `sampleLedger` (entry present) and `emptyLedger` (entry absent). -/
theorem resolution_semantics_witness :
    ((checkInverterTime 10 100 true emptyLedger "P" [⟨0, "S", some 1⟩]).ledger
        = emptyLedger
      ∧ (checkInverterTime 10 100 true emptyLedger "P"
          [⟨0, "S", some 1⟩]).events = [])
    ∧ ((checkInverterTime 10 100 true sampleLedger "P"
          [⟨0, "S", some 1⟩]).ledger
        = ledgerErase ("P" ++ "_" ++ serialOf [⟨0, "S", some 1⟩] ++ "_outdated")
            sampleLedger
      ∧ ∃ o, (checkInverterTime 10 100 true sampleLedger "P"
          [⟨0, "S", some 1⟩]).events
        = [Event.dispatch
            ("P" ++ "_" ++ serialOf [⟨0, "S", some 1⟩] ++ "_outdated"
              ++ "_resolved") none o])
    ∧ (checkLowPowerPeriod 10 100 true sampleLedger "P"
        [⟨0, "S", some 60000⟩]).2 = []
    ∧ ((compareLatestInverterPower 10 100 true sampleLedger "P"
          [⟨0, "A", some 80⟩, ⟨0, "B", some 30⟩]).1
        = ledgerErase (underId "P" "B") sampleLedger
      ∧ ∃ o, (compareLatestInverterPower 10 100 true sampleLedger "P"
          [⟨0, "A", some 80⟩, ⟨0, "B", some 30⟩]).2
        = [Event.dispatch (underId "P" "B" ++ "_resolved") none o]) := by
  refine ⟨?_, ?_, ?_, ?_⟩
  · exact ((resolution_semantics 10 100 true emptyLedger "P").1
      [⟨0, "S", some 1⟩] 0 (by decide) (by decide)).1 rfl
  · exact ((resolution_semantics 10 100 true sampleLedger "P").1
      [⟨0, "S", some 1⟩] 0 (by decide) (by decide)).2 (by decide)
  · exact ((resolution_semantics 10 100 true sampleLedger "P").2.1
      [⟨0, "S", some 60000⟩] 0 60000 [] (by decide) (by decide)).2.1
  · exact ((resolution_semantics 10 100 true sampleLedger "P").2.2
      0 "A" "B" 80 30 (by norm_num) (by norm_num) (by norm_num)).2 (by decide)

/-- **C10** (confirmed).  In the per-device step of
`process_and_visualize_data`, `check_low_power_period` only runs when
`check_inverter_time` returned `True`: a device whose staleness check fires
produces exactly the outdated-alert dispatch and can never raise a
`low_power` or `power_drop` dispatch in the same cycle. -/
theorem outdated_blocks_low_power (hour : Nat) (now : Int) (sendOk : Bool)
    (H : Ledger) (plant : String) (rows : List Row) (tlast : Int)
    (hlast : lastPresentTime rows = some tlast)
    (hstale : 30 * 60 < now - tlast) :
    (processDevice hour now sendOk H plant rows).2
      = (checkInverterTime hour now sendOk H plant rows).events
    ∧ (∀ d o,
        Event.dispatch (plant ++ "_" ++ serialOf rows ++ "_low_power") d o
          ∉ (processDevice hour now sendOk H plant rows).2
        ∧ Event.dispatch (plant ++ "_" ++ serialOf rows ++ "_power_drop") d o
          ∉ (processDevice hour now sendOk H plant rows).2) := by
  have hup : (checkInverterTime hour now sendOk H plant rows).upToDate
      = false := by
    unfold checkInverterTime
    rw [hlast]
    dsimp only
    rw [if_pos (show now - 30 * 60 > tlast by omega)]
  have hev : ∃ o, (checkInverterTime hour now sendOk H plant rows).events
      = [Event.dispatch (plant ++ "_" ++ serialOf rows ++ "_outdated")
          (some ("last_update:" ++ fmtMinute tlast)) o] := by
    unfold checkInverterTime
    rw [hlast]
    dsimp only
    rw [if_pos (show now - 30 * 60 > tlast by omega)]
    obtain ⟨o, ho⟩ := sendTelegramAlert_snd hour now sendOk H
      (plant ++ "_" ++ serialOf rows ++ "_outdated")
      (plant ++ ", inverter " ++ serialOf rows ++ " outdated.\nLast update: "
        ++ fmtMinute tlast)
      (some ("last_update:" ++ fmtMinute tlast))
    exact ⟨o, by rw [ho]⟩
  have hproc : (processDevice hour now sendOk H plant rows).2
      = (checkInverterTime hour now sendOk H plant rows).events := by
    unfold processDevice
    dsimp only
    rw [hup]
    rfl
  refine ⟨hproc, fun d o => ?_⟩
  obtain ⟨o', ho'⟩ := hev
  rw [hproc, ho']
  constructor
  · simp only [List.mem_singleton, Event.dispatch.injEq, not_and]
    intro hid
    exact absurd hid (issueId_ne_of_suffix_length (by decide))
  · simp only [List.mem_singleton, Event.dispatch.injEq, not_and]
    intro hid
    exact absurd hid (issueId_ne_of_suffix_length (by decide))

/-- Witness for `outdated_blocks_low_power`: one sample at `t = 0`, evaluated
31 minutes later. -/
theorem outdated_blocks_low_power_witness :
    (processDevice 10 1860 true emptyLedger "P" [⟨0, "S", some 1⟩]).2
      = (checkInverterTime 10 1860 true emptyLedger "P"
          [⟨0, "S", some 1⟩]).events
    ∧ Event.dispatch ("P" ++ "_" ++ serialOf [⟨0, "S", some 1⟩] ++ "_low_power")
        none Outcome.delivered
      ∉ (processDevice 10 1860 true emptyLedger "P" [⟨0, "S", some 1⟩]).2 :=
  ⟨(outdated_blocks_low_power 10 1860 true emptyLedger "P" [⟨0, "S", some 1⟩] 0
      (by decide) (by decide)).1,
   ((outdated_blocks_low_power 10 1860 true emptyLedger "P" [⟨0, "S", some 1⟩] 0
      (by decide) (by decide)).2 none Outcome.delivered).1⟩

theorem foldl_plantStep_none (hour : Nat) (now : Int) (sendOk : Bool)
    (plant : String) :
    ∀ (files : List (String × Option (List Row))) (acc : PlantAcc),
      (∀ f ∈ files, f.2 = none) →
      files.foldl (plantStep hour now sendOk plant) acc = acc := by
  intro files
  induction files with
  | nil => intro acc _; rfl
  | cons f fs ih =>
    intro acc hn
    rw [List.foldl_cons]
    have hf : f.2 = none := hn f (List.mem_cons_self f fs)
    have hstep : plantStep hour now sendOk plant acc f = acc := by
      unfold plantStep
      rw [hf]
    rw [hstep]
    exact ih acc fun g hg => hn g (List.mem_cons_of_mem f hg)

/-- When at most one row sits at the latest present timestamp, the peer
comparison has no one to compare and returns the history untouched with no
dispatches (the loop body never runs). -/
theorem compareLatestInverterPower_single (hour : Nat) (now : Int)
    (sendOk : Bool) (H : Ledger) (plant : String) (rows : List Row)
    (hlen : ∀ tstar, lastPresentTime rows = some tstar →
      (rows.filter fun r => r.time == tstar).length ≤ 1) :
    compareLatestInverterPower hour now sendOk H plant rows = (H, []) := by
  unfold compareLatestInverterPower
  cases hl : lastPresentTime rows with
  | none => rfl
  | some tstar =>
    dsimp only
    have hS : (sortDescByValue (rows.filter fun r => r.time == tstar)).length
        ≤ 1 := by
      unfold sortDescByValue
      rw [(List.perm_insertionSort rowGE _).length_eq]
      exact hlen tstar hl
    generalize hs : sortDescByValue (rows.filter fun r => r.time == tstar) = S
      at hS ⊢
    match S, hS with
    | [], _ => rfl
    | [r0], _ =>
      dsimp only
      cases hv : r0.value with
      | none => rfl
      | some v0 =>
        dsimp only
        split
        · rfl
        · rfl
    | r0 :: r1 :: rest, hS => simp at hS

/-- **C9** counterexample.  A plant with an all-missing device `A` next to a
healthy device `B`: the deactivation evaluator does NOT abstain on the
all-missing series; it emits the deactivated warning for `A`. -/
theorem deactivation_on_all_missing_counterexample :
    (processPlant 10 3000 true emptyLedger "P"
      [("A", some [⟨0, "A", none⟩, ⟨900, "A", none⟩]),
        ("B", some [⟨0, "B", some 60000⟩, ⟨900, "B", some 60000⟩,
          ⟨1800, "B", some 60000⟩, ⟨2700, "B", some 60000⟩])]).2
      = [Event.deactivated "P" "A"] := by
  have hfold : List.foldl (plantStep 10 3000 true "P")
      (⟨emptyLedger, [], [], []⟩ : PlantAcc)
      [("A", some [⟨0, "A", none⟩, ⟨900, "A", none⟩]),
        ("B", some [⟨0, "B", some 60000⟩, ⟨900, "B", some 60000⟩,
          ⟨1800, "B", some 60000⟩, ⟨2700, "B", some 60000⟩])]
      = ⟨emptyLedger, [], [⟨0, "B", some 60000⟩, ⟨900, "B", some 60000⟩,
          ⟨1800, "B", some 60000⟩, ⟨2700, "B", some 60000⟩], ["A"]⟩ := rfl
  have hcmp : compareLatestInverterPower 10 3000 true emptyLedger "P"
      (List.map (fun r =>
          { time := r.time, serial := r.serial,
            value := Option.map (fun x => x / 1000) r.value })
        (gapSplit (sortByTime (List.filter (fun r => r.value.isSome)
          [⟨0, "B", some 60000⟩, ⟨900, "B", some 60000⟩,
            ⟨1800, "B", some 60000⟩, ⟨2700, "B", some 60000⟩]))))
      = (emptyLedger, []) := by
    apply compareLatestInverterPower_single
    intro tstar hl
    have ht : tstar = 2700 := by
      have : some tstar = some (2700 : Int) := by rw [← hl]; rfl
      exact Option.some_inj.mp this.symm |>.symm
    subst ht
    decide
  unfold processPlant
  dsimp only
  rw [hfold]
  dsimp only
  rw [hcmp]
  rfl

/-- **C9** (corrected).  Ingesting an empty raw result list yields an empty
series; a device whose fetch produced nothing (no CSV file) is skipped
entirely, and a plant all of whose devices lack files produces no events and
leaves the ledger untouched; a single all-missing device likewise produces
nothing (the plant frame stays empty, so even its deactivation warning is not
rendered) — but when the plant frame is nonempty an all-missing device IS
flagged deactivated, while the staleness and low-power evaluators still do not
run on it (last conjunct, two-device plant: the only event is the deactivated
warning). -/
theorem empty_input_abstention (hour : Nat) (now : Int) (sendOk : Bool)
    (H : Ledger) (plant : String) :
    (∀ s : String, buildResults s [] = [])
    ∧ (∀ files : List (String × Option (List Row)),
        (∀ f ∈ files, f.2 = none) →
        processPlant hour now sendOk H plant files = (H, []))
    ∧ (∀ (s : String) (rows : List Row), (∀ r ∈ rows, r.value = none) →
        processPlant hour now sendOk H plant [(s, some rows)] = (H, []))
    ∧ (processPlant 10 3000 true emptyLedger "Q"
        [("X", some [⟨0, "X", none⟩]),
          ("Y", some [⟨0, "Y", some 60000⟩, ⟨900, "Y", some 60000⟩,
            ⟨1800, "Y", some 60000⟩, ⟨2700, "Y", some 60000⟩])]).2
      = [Event.deactivated "Q" "X"] := by
  refine ⟨fun s => rfl, ?_, ?_, ?_⟩
  · intro files hn
    unfold processPlant
    rw [foldl_plantStep_none hour now sendOk plant files _ hn]
    rfl
  · intro s rows hmiss
    have hany : (rows.any fun r => r.value.isSome) = false := by
      rw [List.any_eq_false]
      intro r hr
      rw [hmiss r hr]
      simp
    unfold processPlant
    rw [List.foldl_cons, List.foldl_nil]
    have hstep : plantStep hour now sendOk plant ⟨H, [], [], []⟩ (s, some rows)
        = ⟨H, [], [], [s]⟩ := by
      unfold plantStep
      dsimp only
      rw [hany]
      rfl
    rw [hstep]
    rfl
  · have hfold : List.foldl (plantStep 10 3000 true "Q")
        (⟨emptyLedger, [], [], []⟩ : PlantAcc)
        [("X", some [⟨0, "X", none⟩]),
          ("Y", some [⟨0, "Y", some 60000⟩, ⟨900, "Y", some 60000⟩,
            ⟨1800, "Y", some 60000⟩, ⟨2700, "Y", some 60000⟩])]
        = ⟨emptyLedger, [], [⟨0, "Y", some 60000⟩, ⟨900, "Y", some 60000⟩,
            ⟨1800, "Y", some 60000⟩, ⟨2700, "Y", some 60000⟩], ["X"]⟩ := rfl
    have hcmp : compareLatestInverterPower 10 3000 true emptyLedger "Q"
        (List.map (fun r =>
            { time := r.time, serial := r.serial,
              value := Option.map (fun x => x / 1000) r.value })
          (gapSplit (sortByTime (List.filter (fun r => r.value.isSome)
            [⟨0, "Y", some 60000⟩, ⟨900, "Y", some 60000⟩,
              ⟨1800, "Y", some 60000⟩, ⟨2700, "Y", some 60000⟩]))))
        = (emptyLedger, []) := by
      apply compareLatestInverterPower_single
      intro tstar hl
      have ht : tstar = 2700 := by
        have h2 : some tstar = some (2700 : Int) := by rw [← hl]; rfl
        exact (Option.some_inj.mp h2.symm).symm
      subst ht
      decide
    unfold processPlant
    dsimp only
    rw [hfold]
    dsimp only
    rw [hcmp]
    rfl

/-- Witness for `empty_input_abstention`: ingestion of an empty result list,
a plant whose two devices both lack files, and a plant whose only device has
an all-missing series. -/
theorem empty_input_abstention_witness :
    buildResults "S" [] = []
    ∧ processPlant 10 3000 true emptyLedger "P" [("A", none), ("B", none)]
      = (emptyLedger, [])
    ∧ processPlant 10 3000 true emptyLedger "P"
        [("A", some [⟨0, "A", none⟩, ⟨900, "A", none⟩])] = (emptyLedger, []) :=
  ⟨(empty_input_abstention 10 3000 true emptyLedger "P").1 "S",
   (empty_input_abstention 10 3000 true emptyLedger "P").2.1
     [("A", none), ("B", none)] (by
       intro f hf
       rcases List.mem_cons.mp hf with rfl | hf'
       · rfl
       · rcases List.mem_cons.mp hf' with rfl | hf''
         · rfl
         · exact absurd hf'' (List.not_mem_nil f)),
   (empty_input_abstention 10 3000 true emptyLedger "P").2.2.1 "A"
     [⟨0, "A", none⟩, ⟨900, "A", none⟩] (by
       intro r hr
       rcases List.mem_cons.mp hr with rfl | hr'
       · rfl
       · rcases List.mem_cons.mp hr' with rfl | hr''
         · rfl
         · exact absurd hr'' (List.not_mem_nil r))⟩

theorem le_foldl_max (l : List ℚ) : ∀ a : ℚ, a ≤ l.foldl max a := by
  induction l with
  | nil => intro a; exact le_refl a
  | cons x xs ih =>
    intro a
    exact le_trans (le_max_left a x) (ih (max a x))

theorem mem_le_foldl_max (l : List ℚ) : ∀ a x : ℚ, x ∈ l → x ≤ l.foldl max a := by
  induction l with
  | nil => intro a x hx; exact absurd hx (List.not_mem_nil x)
  | cons y ys ih =>
    intro a x hx
    rcases List.mem_cons.mp hx with rfl | hx'
    · exact le_trans (le_max_right a x) (le_foldl_max ys (max a x))
    · exact ih (max a y) x hx'

theorem foldl_max_mem (l : List ℚ) : ∀ a : ℚ, l.foldl max a = a ∨ l.foldl max a ∈ l := by
  induction l with
  | nil => intro a; exact Or.inl rfl
  | cons x xs ih =>
    intro a
    rcases ih (max a x) with h | h
    · rw [List.foldl_cons, h]
      rcases max_cases a x with ⟨hm, -⟩ | ⟨hm, -⟩
      · exact Or.inl hm
      · exact Or.inr (by rw [hm]; exact List.mem_cons_self x xs)
    · exact Or.inr (List.mem_cons_of_mem x (by rw [List.foldl_cons]; exact h))

theorem le_maxQ {l : List ℚ} {x : ℚ} (hx : x ∈ l) : x ≤ maxQ l := by
  cases l with
  | nil => exact absurd hx (List.not_mem_nil x)
  | cons y ys =>
    unfold maxQ
    dsimp only
    rcases List.mem_cons.mp hx with rfl | hx'
    · exact le_foldl_max ys x
    · exact mem_le_foldl_max ys y x hx'

theorem maxQ_mem {l : List ℚ} (h : l ≠ []) : maxQ l ∈ l := by
  cases l with
  | nil => exact absurd rfl h
  | cons y ys =>
    unfold maxQ
    dsimp only
    rcases foldl_max_mem ys y with h1 | h1
    · rw [h1]; exact List.mem_cons_self y ys
    · exact List.mem_cons_of_mem y h1

theorem lastPresentTime_of_uniform (t : Int) :
    ∀ rows : List Row, rows ≠ [] →
      (∀ r ∈ rows, r.time = t ∧ r.value.isSome) →
      lastPresentTime rows = some t := by
  intro rows
  induction rows with
  | nil => intro h; exact absurd rfl h
  | cons r rs ih =>
    intro _ hall
    have hr := hall r (List.mem_cons_self r rs)
    have hpos : (fun x : Row => x.value.isSome) r = true := hr.2
    cases rs with
    | nil =>
      unfold lastPresentTime
      rw [@List.filter_cons_of_pos Row (fun x => x.value.isSome) r [] hpos]
      simp [hr.1]
    | cons r2 rs2 =>
      have h2 := ih (by simp) fun x hx => hall x (List.mem_cons_of_mem r hx)
      have hpos2 : (fun x : Row => x.value.isSome) r2 = true :=
        (hall r2 (by simp)).2
      unfold lastPresentTime at h2 ⊢
      rw [@List.filter_cons_of_pos Row (fun x => x.value.isSome) r (r2 :: rs2)
          hpos,
        @List.filter_cons_of_pos Row (fun x => x.value.isSome) r2 rs2 hpos2]
      rw [@List.filter_cons_of_pos Row (fun x => x.value.isSome) r2 rs2 hpos2]
        at h2
      rw [List.getLast?_cons_cons]
      exact h2

theorem compareFold_events (hour : Nat) (now : Int) (sendOk : Bool)
    (plant : String) (tstar : Int) (v0 : ℚ) :
    ∀ (l : List Row) (H0 : Ledger) (evs : List Event),
      (∀ r ∈ l, H0 (underId plant r.serial) = none) →
      List.Pairwise (fun a b : Row => a.serial ≠ b.serial) l →
      (l.foldl (compareStep hour now sendOk plant tstar v0) (H0, evs)).2
        = evs ++ l.filterMap (underEvent hour sendOk tstar v0 plant) := by
  intro l
  induction l with
  | nil => intro H0 evs _ _; simp
  | cons r l ih =>
    intro H0 evs hH hpw
    have hHr : H0 (underId plant r.serial) = none :=
      hH r (List.mem_cons_self r l)
    rw [List.foldl_cons]
    by_cases hu : underFlagged v0 r = true
    · have hstep : compareStep hour now sendOk plant tstar v0 (H0, evs) r
          = ((if 8 ≤ hour ∧ hour ≤ 16 then
                ledgerInsert (underId plant r.serial)
                  ⟨now, some (underDetails tstar r),
                    plant ++ ", inverter " ++ r.serial
                      ++ " is underperforming with "
                      ++ fmtVal (roundTo2 (r.value.getD 0)) ++ " kW."⟩
                  (cleanOldMessages now H0)
              else H0),
            evs ++ [Event.dispatch (underId plant r.serial)
              (some (underDetails tstar r)) (sendOutcome hour sendOk)]) := by
        unfold compareStep
        dsimp only
        rw [if_pos hu, sendTelegramAlert_of_none hHr]
      rw [hstep]
      have hinv : ∀ r' ∈ l,
          (if 8 ≤ hour ∧ hour ≤ 16 then
              ledgerInsert (underId plant r.serial)
                ⟨now, some (underDetails tstar r),
                  plant ++ ", inverter " ++ r.serial
                    ++ " is underperforming with "
                    ++ fmtVal (roundTo2 (r.value.getD 0)) ++ " kW."⟩
                (cleanOldMessages now H0)
            else H0) (underId plant r'.serial) = none := by
        intro r' hr'
        have hne : r.serial ≠ r'.serial := (List.pairwise_cons.mp hpw).1 r' hr'
        have hne2 : underId plant r'.serial ≠ underId plant r.serial :=
          fun he => hne (issueId_serial_inj he).symm
        split
        · unfold ledgerInsert
          rw [if_neg hne2]
          exact cleanOld_none_of_none
            (hH r' (List.mem_cons_of_mem r hr'))
        · exact hH r' (List.mem_cons_of_mem r hr')
      rw [ih _ _ hinv (List.pairwise_cons.mp hpw).2]
      have hfe : underEvent hour sendOk tstar v0 plant r
          = some (Event.dispatch (underId plant r.serial)
              (some (underDetails tstar r)) (sendOutcome hour sendOk)) := by
        unfold underEvent
        rw [if_pos hu]
      rw [List.filterMap_cons_some hfe]
      simp
    · have hu' : underFlagged v0 r = false := by
        cases h : underFlagged v0 r
        · rfl
        · exact absurd h hu
      have hstep : compareStep hour now sendOk plant tstar v0 (H0, evs) r
          = (H0, evs) := by
        unfold compareStep
        dsimp only
        rw [if_neg (by rw [hu']; simp)]
        rw [hHr]
        rfl
      rw [hstep]
      rw [ih _ _ (fun r' hr' => hH r' (List.mem_cons_of_mem r hr'))
        (List.pairwise_cons.mp hpw).2]
      have hfn : underEvent hour sendOk tstar v0 plant r = none := by
        unfold underEvent
        rw [if_neg (by rw [hu']; simp)]
      rw [List.filterMap_cons_none hfn]

/-- **C6** (confirmed).  For a plant whose devices all report at the same
latest timestamp (clean history): ranking descending by value, no device is
flagged underperforming when the maximum value is at most 50; when the
maximum exceeds 50, a device is flagged exactly when its value is strictly
below a quarter of the maximum, and the maximum-valued (rank-0) device is
never flagged against itself. -/
theorem peer_underperformance (hour : Nat) (now : Int) (sendOk : Bool)
    (plant : String) (t : Int) (devs : List (String × ℚ))
    (hne : devs ≠ [])
    (hnd : (devs.map Prod.fst).Nodup) :
    (maxQ (devs.map Prod.snd) ≤ 50 →
      (compareLatestInverterPower hour now sendOk emptyLedger plant
        (devs.map fun p => ⟨t, p.1, some p.2⟩)).2 = [])
    ∧ (50 < maxQ (devs.map Prod.snd) →
      ∀ s : String,
        (∃ d o, Event.dispatch (underId plant s) d o
          ∈ (compareLatestInverterPower hour now sendOk emptyLedger plant
              (devs.map fun p => ⟨t, p.1, some p.2⟩)).2)
        ↔ ∃ p ∈ devs, p.1 = s ∧ p.2 < maxQ (devs.map Prod.snd) * (1 / 4))
    ∧ (50 < maxQ (devs.map Prod.snd) →
      ∀ p ∈ devs, p.2 = maxQ (devs.map Prod.snd) →
      ∀ d o, Event.dispatch (underId plant p.1) d o
        ∉ (compareLatestInverterPower hour now sendOk emptyLedger plant
            (devs.map fun p => ⟨t, p.1, some p.2⟩)).2) := by
  set M := maxQ (devs.map Prod.snd) with hMdef
  set rows := devs.map fun p => (⟨t, p.1, some p.2⟩ : Row) with hrows
  have hrowsne : rows ≠ [] := by
    rw [hrows]
    simp [hne]
  have hall : ∀ r ∈ rows, r.time = t ∧ r.value.isSome := by
    intro r hr
    rw [hrows] at hr
    obtain ⟨p, hp, rfl⟩ := List.mem_map.mp hr
    exact ⟨rfl, rfl⟩
  have hlpt : lastPresentTime rows = some t :=
    lastPresentTime_of_uniform t rows hrowsne hall
  have hfilt : rows.filter (fun r => r.time == t) = rows := by
    rw [List.filter_eq_self]
    intro r hr
    simp [(hall r hr).1]
  have hperm : List.Perm (sortDescByValue rows) rows :=
    List.perm_insertionSort rowGE rows
  have hsorted : List.Sorted rowGE (sortDescByValue rows) :=
    List.sorted_insertionSort rowGE rows
  obtain ⟨r0, rest, hS⟩ : ∃ r0 rest, sortDescByValue rows = r0 :: rest := by
    cases hS : sortDescByValue rows with
    | nil =>
      rw [hS] at hperm
      exact absurd hperm.symm.eq_nil hrowsne
    | cons a l => exact ⟨a, l, rfl⟩
  have hr0mem : r0 ∈ rows :=
    hperm.mem_iff.mp (by rw [hS]; exact List.mem_cons_self r0 rest)
  obtain ⟨p0, hp0, hp0eq⟩ := List.mem_map.mp (by rw [← hrows]; exact hr0mem)
  have hr0v : r0.value = some p0.2 := by rw [← hp0eq]
  have hv0le : p0.2 ≤ M := le_maxQ (List.mem_map_of_mem Prod.snd hp0)
  have hMle : M ≤ p0.2 := by
    have hmapne : devs.map Prod.snd ≠ [] := by simp [hne]
    obtain ⟨q, hq, hq2⟩ := List.mem_map.mp (maxQ_mem hmapne)
    have hrq : (⟨t, q.1, some q.2⟩ : Row) ∈ rows := by
      rw [hrows]
      exact List.mem_map_of_mem _ hq
    have hrqS := hperm.mem_iff.mpr hrq
    rw [hS] at hrqS
    rcases List.mem_cons.mp hrqS with heq | hmem
    · have hv : some q.2 = some p0.2 := by rw [← hr0v, ← heq]
      rw [hMdef, ← hq2]
      exact le_of_eq (Option.some_inj.mp hv)
    · have hge := List.rel_of_sorted_cons (hS ▸ hsorted) _ hmem
      have hge' : ((q.2 : ℚ) : WithBot ℚ) ≤ ((p0.2 : ℚ) : WithBot ℚ) := by
        unfold rowGE valW at hge
        rw [hr0v] at hge
        simpa using hge
      rw [hMdef, ← hq2]
      exact_mod_cast hge'
  have hv0M : p0.2 = M := le_antisymm hv0le hMle
  have hcompare : compareLatestInverterPower hour now sendOk emptyLedger plant
      rows
      = if p0.2 > 50 then
          List.foldl (compareStep hour now sendOk plant t p0.2)
            (emptyLedger, []) rest
        else (emptyLedger, []) := by
    unfold compareLatestInverterPower
    rw [hlpt]
    dsimp only
    rw [hfilt, hS]
    dsimp only
    rw [hr0v]
  have hpwrest : List.Pairwise (fun a b : Row => a.serial ≠ b.serial) rest := by
    have hpwrows : List.Pairwise (fun a b : Row => a.serial ≠ b.serial)
        rows := by
      rw [hrows, List.pairwise_map]
      exact List.pairwise_map.mp hnd
    have hsymm : Symmetric (fun a b : Row => a.serial ≠ b.serial) := by
      intro x y h
      exact h.symm
    have hpwsort := (hperm.pairwise_iff fun h => hsymm h).mpr hpwrows
    rw [hS] at hpwsort
    exact (List.pairwise_cons.mp hpwsort).2
  have hevents : 50 < M →
      (compareLatestInverterPower hour now sendOk emptyLedger plant rows).2
        = rest.filterMap (underEvent hour sendOk t p0.2 plant) := by
    intro hgt
    rw [hcompare, if_pos (by rw [hv0M]; exact hgt)]
    rw [compareFold_events hour now sendOk plant t p0.2 rest emptyLedger []
      (fun _ _ => rfl) hpwrest]
    simp
  have hiff : 50 < M → ∀ s : String,
      (∃ d o, Event.dispatch (underId plant s) d o
        ∈ (compareLatestInverterPower hour now sendOk emptyLedger plant
            rows).2)
      ↔ ∃ p ∈ devs, p.1 = s ∧ p.2 < M * (1 / 4) := by
    intro hgt s
    constructor
    · rintro ⟨d, o, hmem⟩
      rw [hevents hgt] at hmem
      obtain ⟨r, hrmem, hfr⟩ := List.mem_filterMap.mp hmem
      unfold underEvent at hfr
      by_cases hu : underFlagged p0.2 r = true
      · rw [if_pos hu] at hfr
        have hinj := Option.some_inj.mp hfr
        injection hinj with h1 h2 h3
        have hser : r.serial = s := issueId_serial_inj h1
        have hrrows : r ∈ rows :=
          hperm.mem_iff.mp (by rw [hS]; exact List.mem_cons_of_mem r0 hrmem)
        rw [hrows] at hrrows
        obtain ⟨p, hp, hpe⟩ := List.mem_map.mp hrrows
        refine ⟨p, hp, ?_, ?_⟩
        · rw [← hser, ← hpe]
        · unfold underFlagged at hu
          rw [← hpe] at hu
          dsimp only at hu
          rw [← hv0M]
          exact of_decide_eq_true hu
      · rw [if_neg hu] at hfr
        exact Option.noConfusion hfr
    · rintro ⟨p, hp, hps, hplt⟩
      have hrp : (⟨t, p.1, some p.2⟩ : Row) ∈ rows := by
        rw [hrows]
        exact List.mem_map_of_mem _ hp
      have hrpS := hperm.mem_iff.mpr hrp
      rw [hS] at hrpS
      rcases List.mem_cons.mp hrpS with heq | hmem
      · exfalso
        have hv : some p.2 = some p0.2 := by rw [← hr0v, ← heq]
        have hpM : p.2 = M := by rw [Option.some_inj.mp hv, hv0M]
        rw [hpM] at hplt
        linarith
      · refine ⟨some (underDetails t ⟨t, p.1, some p.2⟩),
          sendOutcome hour sendOk, ?_⟩
        rw [hevents hgt]
        apply List.mem_filterMap.mpr
        refine ⟨⟨t, p.1, some p.2⟩, hmem, ?_⟩
        unfold underEvent
        rw [if_pos (by
          unfold underFlagged
          dsimp only
          rw [hv0M]
          exact decide_eq_true hplt)]
        dsimp only
        rw [hps]
  refine ⟨?_, hiff, ?_⟩
  · intro hle
    rw [hcompare, if_neg (by rw [hv0M]; exact not_lt.mpr hle)]
  · intro hgt p hp hpM d o hmem
    obtain ⟨q, hq, hq1, hqlt⟩ := (hiff hgt p.1).mp ⟨d, o, hmem⟩
    have hqp : q = p :=
      List.inj_on_of_nodup_map hnd hq hp hq1
    rw [hqp, hpM] at hqlt
    linarith

/-- Witness for `peer_underperformance`: the spec's scenario, plant `P` with
`A = 80`, `B = 15` (in kW) flags exactly `B`; a plant with maximum 40 flags
nothing; `A` (rank 0) is never flagged against itself. -/
theorem peer_underperformance_witness :
    (∃ d o, Event.dispatch (underId "P" "B") d o
      ∈ (compareLatestInverterPower 10 0 true emptyLedger "P"
          ([("A", (80 : ℚ)), ("B", 15)].map fun p => ⟨0, p.1, some p.2⟩)).2)
    ∧ (compareLatestInverterPower 10 0 true emptyLedger "P"
        ([("A", (40 : ℚ)), ("B", 1)].map fun p => ⟨0, p.1, some p.2⟩)).2 = []
    ∧ Event.dispatch (underId "P" "A") (some "x") Outcome.delivered
      ∉ (compareLatestInverterPower 10 0 true emptyLedger "P"
          ([("A", (80 : ℚ)), ("B", 15)].map fun p => ⟨0, p.1, some p.2⟩)).2 := by
  have hm80 : maxQ ([("A", (80 : ℚ)), ("B", 15)].map Prod.snd) = 80 := by
    norm_num [maxQ, List.foldl, max_def]
  have hm40 : maxQ ([("A", (40 : ℚ)), ("B", 1)].map Prod.snd) = 40 := by
    norm_num [maxQ, List.foldl, max_def]
  have h1 := peer_underperformance 10 0 true "P" 0 [("A", 80), ("B", 15)]
    (by simp) (by decide)
  have h2 := peer_underperformance 10 0 true "P" 0 [("A", 40), ("B", 1)]
    (by simp) (by decide)
  refine ⟨?_, ?_, ?_⟩
  · exact (h1.2.1 (by rw [hm80]; norm_num) "B").mpr
      ⟨("B", 15), by simp, rfl, by rw [hm80]; norm_num⟩
  · exact h2.1 (by rw [hm40]; norm_num)
  · exact h1.2.2 (by rw [hm80]; norm_num) ("A", 80) (by simp) hm80.symm
      (some "x") Outcome.delivered
